import Mathlib

/-!
Shallow embedding of `src/utils.rs` of the bustd repository (OS-query
utility layer), together with theorems checking the specification's
claims about it.

OS primitives (`getpgid`, `errno`, `sysconf`, `geteuid`, `getpwuid_r`,
`File::open`) are external to the program; they are modelled as oracle
inputs: each wrapper receives the value the OS call would have produced
and performs exactly the branching the Rust source performs on it.
Machine integers are modelled as `Nat`/`Int`; the one place where
unsigned 64-bit overflow matters (`bytes_to_megabytes`) carries an
explicit `% 2 ^ 64`.
-/

namespace Bustd

/-- Model of `core::str::Utf8Error`: the error value produced by
`str::from_utf8`, identified by the length of the valid prefix. -/
structure Utf8Error where
  validUpTo : Nat
deriving DecidableEq, Repr

/-- Modelled from the spec: the failure categories of the OS file-open
primitive (`std::io::ErrorKind`), which the spec (§4.6) says are
propagated unchanged: "not-found, permission, etc.". -/
inductive IoErrorKind where
  | NotFound
  | PermissionDenied
  | Other
deriving DecidableEq, Repr

/-- Modelled from the spec: the error taxonomy of `src/error.rs`, which is
not part of the provided sources.  Variants `NoPermission`,
`ProcessGroupNotFound`, `InvalidPidSupplied`, `UnknownGetpguid`,
`SysConfFailed` and `StringFromBytes` are constructed by name in
`src/utils.rs`; per the spec (§4.1), UTF-8 decoding failures and
file-open failures propagate as their own underlying kinds, modelled
here as the payload-carrying variants `Utf8` and `Io` (the `From`
conversions invoked by the `?` operator wrap the underlying error
without altering it). -/
inductive Error where
  | NoPermission
  | ProcessGroupNotFound
  | InvalidPidSupplied
  | UnknownGetpguid
  | SysConfFailed
  | StringFromBytes
  | Utf8 (e : Utf8Error)
  | Io (kind : IoErrorKind)
deriving DecidableEq, Repr

/-- `libc::EPERM` on the target platform family (Linux). -/
def EPERM : Int := 1

/-- `libc::ESRCH` on the target platform family (Linux). -/
def ESRCH : Int := 3

/-- `libc::EINVAL` on the target platform family (Linux). -/
def EINVAL : Int := 22

/-- Embedding of `get_process_group` (src/utils.rs lines 20-32).
`osPgid` is the value returned by the raw `getpgid(pid)` call and
`errnoVal` is the OS error code read immediately after it (the
`crate::errno::errno()` snapshot). -/
def get_process_group (osPgid : Int) (errnoVal : Int) : Except Error Int :=
  if osPgid = -1 then
    .error
      (if errnoVal = EPERM then .NoPermission
       else if errnoVal = ESRCH then .ProcessGroupNotFound
       else if errnoVal = EINVAL then .InvalidPidSupplied
       else .UnknownGetpguid)
  else
    .ok osPgid

/-- Embedding of `effective_user_id` (src/utils.rs lines 12-16): a
pass-through of the value produced by `libc::geteuid()`, which the
source documents as never failing. -/
def effective_user_id (euid : Nat) : Nat :=
  euid

/-- Embedding of `running_as_sudo` (src/utils.rs lines 34-36). -/
def running_as_sudo (euid : Nat) : Bool :=
  effective_user_id euid == 0

/-- Embedding of `page_size` (src/utils.rs lines 38-48). `osResult` is
the value returned by `sysconf(_SC_PAGESIZE)`; the source widens it
with `.into()` to `i64`, modelled by the pass-through into `Int`. -/
def page_size (osResult : Int) : Except Error Int :=
  if osResult = -1 then .error .SysConfFailed
  else .ok osResult

/-- Embedding of `bytes_to_megabytes` (src/utils.rs lines 85-88).
Both arguments are widened into `u64`; the division by the constant
`B_TO_MB = 1000 * 1000` cannot overflow, while the subsequent
multiplication is `u64` multiplication, i.e. reduction `% 2 ^ 64` of
the mathematical product. -/
def bytes_to_megabytes (bytes mem_unit : Nat) : Nat :=
  bytes / (1000 * 1000) * mem_unit % 2 ^ 64

/-! ### UTF-8 model

Rust `&str` values are modelled as their byte sequences (`List Nat`,
each element a byte `< 256`); the UTF-8 validity invariant of `&str`
becomes an explicit predicate.  `utf8Step` examines the head of a byte
list: it returns `(true, n)` when the list starts with one well-formed
UTF-8 scalar-value encoding of `n` bytes (rejecting overlong forms,
surrogates and values above `U+10FFFF`, as `str::from_utf8` does), and
`(false, k)` when it does not, `k` being the length of the maximal
valid prefix of the attempted sequence (at least 1), as in
`Utf8Error`/`from_utf8_lossy`. -/

/-- Is `b` a UTF-8 continuation byte (`0x80..=0xBF`)? -/
def isCont (b : Nat) : Bool :=
  0x80 ≤ b && b ≤ 0xBF

/-- One step of UTF-8 scanning; see the section comment above. -/
def utf8Step : List Nat → Bool × Nat
  | [] => (true, 0)
  | b :: rest =>
    if b ≤ 0x7F then (true, 1)
    else if 0xC2 ≤ b && b ≤ 0xDF then
      match rest with
      | b1 :: _ => if isCont b1 then (true, 2) else (false, 1)
      | [] => (false, 1)
    else if 0xE0 ≤ b && b ≤ 0xEF then
      let lo := if b = 0xE0 then 0xA0 else 0x80
      let hi := if b = 0xED then 0x9F else 0xBF
      match rest with
      | b1 :: rest1 =>
        if lo ≤ b1 && b1 ≤ hi then
          match rest1 with
          | b2 :: _ => if isCont b2 then (true, 3) else (false, 2)
          | [] => (false, 2)
        else (false, 1)
      | [] => (false, 1)
    else if 0xF0 ≤ b && b ≤ 0xF4 then
      let lo := if b = 0xF0 then 0x90 else 0x80
      let hi := if b = 0xF4 then 0x8F else 0xBF
      match rest with
      | b1 :: rest1 =>
        if lo ≤ b1 && b1 ≤ hi then
          match rest1 with
          | b2 :: rest2 =>
            if isCont b2 then
              match rest2 with
              | b3 :: _ => if isCont b3 then (true, 4) else (false, 3)
              | [] => (false, 3)
            else (false, 2)
          | [] => (false, 2)
        else (false, 1)
      | [] => (false, 1)
    else (false, 1)

/-- Scan a byte list for its first UTF-8 error, accumulating the byte
position `pos`; fuelled recursion (each step consumes at least one
byte, so fuel `l.length` suffices). Returns `none` when the whole list
is valid UTF-8. -/
def utf8FindErrorAux : Nat → Nat → List Nat → Option Utf8Error
  | _, _, [] => none
  | 0, pos, _ :: _ => some ⟨pos⟩
  | fuel + 1, pos, l@(_ :: _) =>
    match utf8Step l with
    | (true, n) => utf8FindErrorAux fuel (pos + n) (l.drop n)
    | (false, _) => some ⟨pos⟩

/-- Model of `str::from_utf8`: succeeds with the byte sequence itself
(a `&str` is its bytes) exactly when the bytes are valid UTF-8. -/
def from_utf8 (bytes : List Nat) : Except Utf8Error (List Nat) :=
  match utf8FindErrorAux bytes.length 0 bytes with
  | none => .ok bytes
  | some e => .error e

/-- Model of `String::from_utf8_lossy` on the byte level: valid
scalar-value sequences are copied through; each maximal invalid prefix
is replaced by the UTF-8 encoding of U+FFFD (`EF BF BD`).  Fuelled
recursion as in `utf8FindErrorAux`. -/
def utf8LossyAux : Nat → List Nat → List Nat
  | _, [] => []
  | 0, _ :: _ => []
  | fuel + 1, l@(_ :: _) =>
    match utf8Step l with
    | (true, n) => l.take n ++ utf8LossyAux fuel (l.drop n)
    | (false, k) => 0xEF :: 0xBF :: 0xBD :: utf8LossyAux fuel (l.drop k)

/-- Model of `String::from_utf8_lossy` (entry point). -/
def from_utf8_lossy (bytes : List Nat) : List Nat :=
  utf8LossyAux bytes.length bytes

/-! ### Buffer/string utilities -/

/-- Model of `Iterator::position` as used in
`buf.iter().position(|&c| c == b'\0')`. -/
def position (p : Nat → Bool) : List Nat → Option Nat
  | [] => none
  | b :: rest => if p b then some 0 else (position p rest).map (· + 1)

/-- Model of `slice::get` with the range `0..stop`: `Some` of the
sub-slice exactly when `stop` does not exceed the slice length. -/
def sliceGet (buf : List Nat) (stop : Nat) : Option (List Nat) :=
  if stop ≤ buf.length then some (buf.take stop) else none

/-- Embedding of `str_from_u8` (src/utils.rs lines 71-77): find the
first null byte (or the buffer length when there is none), take the
prefix up to it via the fallible `slice::get`, and decode it as UTF-8;
the `?` on `str::from_utf8` wraps a decode failure into `Error.Utf8`. -/
def str_from_u8 (buf : List Nat) : Except Error (List Nat) :=
  let first_nul_idx := (position (· == 0) buf).getD buf.length
  match sliceGet buf first_nul_idx with
  | none => .error .StringFromBytes
  | some bytes =>
    match from_utf8 bytes with
    | .ok s => .ok s
    | .error e => .error (.Utf8 e)

/-- Model of an open `std::fs::File` handle. -/
structure File where
  fd : Nat
deriving DecidableEq, Repr

/-- Embedding of `file_from_buffer` (src/utils.rs lines 79-83).
`openFile` is the OS file-open oracle (`File::open` on the decoded
path's bytes); the `?` operators propagate the decode failure, resp.
wrap the OS failure kind into `Error.Io`. -/
def file_from_buffer (openFile : List Nat → Except IoErrorKind File)
    (buf : List Nat) : Except Error File :=
  match str_from_u8 buf with
  | .error e => .error e
  | .ok path =>
    match openFile path with
    | .error k => .error (.Io k)
    | .ok f => .ok f

/-! ### Username resolution -/

/-- The observable outcome of the `getpwuid_r` OS call in
`get_username`: its return code, whether the `result` out-pointer was
left null, and the bytes of the entry's `pw_name` C string (as read by
`CStr::from_ptr`, hence free of interior null bytes). -/
structure PwQuery where
  code : Int
  resultNull : Bool
  pwNameBytes : List Nat
deriving DecidableEq, Repr

/-- Embedding of `get_username` (src/utils.rs lines 50-69): when the
`getpwuid_r` call returns code 0 and a non-null result pointer, the
entry's name bytes are copied out through `String::from_utf8_lossy`
and returned as an owned value; in every other case the function
returns `none`. -/
def get_username (q : PwQuery) : Option (List Nat) :=
  if q.code = 0 && !q.resultNull then
    some (from_utf8_lossy q.pwNameBytes)
  else
    none

/-! ### Helper lemmas about `position` -/

theorem position_lt_length (p : Nat → Bool) :
    ∀ (l : List Nat) (i : Nat), position p l = some i → i < l.length := by
  intro l
  induction l with
  | nil => intro i h; simp [position] at h
  | cons b rest ih =>
    intro i h
    simp only [position] at h
    by_cases hb : p b
    · simp [hb] at h
      simp only [List.length_cons]
      omega
    · simp [hb] at h
      obtain ⟨j, hj, rfl⟩ := h
      have := ih j hj
      simp only [List.length_cons]
      omega

theorem position_getD_le (p : Nat → Bool) (l : List Nat) :
    (position p l).getD l.length ≤ l.length := by
  cases h : position p l with
  | none => simp
  | some i => simpa using Nat.le_of_lt (position_lt_length p l i h)

theorem position_eq_none (p : Nat → Bool) :
    ∀ (l : List Nat), (∀ b ∈ l, p b = false) → position p l = none := by
  intro l
  induction l with
  | nil => intro _; rfl
  | cons b rest ih =>
    intro h
    have hb : p b = false := h b (by simp)
    have hrest : position p rest = none := ih fun x hx => h x (by simp [hx])
    simp [position, hb, hrest]

theorem position_none_forall (p : Nat → Bool) :
    ∀ (l : List Nat), position p l = none → ∀ b ∈ l, p b = false := by
  intro l
  induction l with
  | nil => intro _ b hb; simp at hb
  | cons b rest ih =>
    intro h x hx
    simp only [position] at h
    by_cases hb : p b
    · simp [hb] at h
    · simp [hb] at h
      rcases List.mem_cons.mp hx with rfl | hx
      · simpa using hb
      · exact ih h x hx

theorem position_append_first (p : Nat → Bool) (b : Nat) (hb : p b = true) :
    ∀ (S rest : List Nat), (∀ x ∈ S, p x = false) →
      position p (S ++ b :: rest) = some S.length := by
  intro S
  induction S with
  | nil => intro rest _; simp [position, hb]
  | cons a S ih =>
    intro rest h
    have ha : p a = false := h a (by simp)
    have := ih rest fun x hx => h x (by simp [hx])
    simp [position, ha, this]

theorem position_some_found (p : Nat → Bool) :
    ∀ (l : List Nat) (i : Nat), position p l = some i →
      ∃ b, l.get? i = some b ∧ p b = true := by
  intro l
  induction l with
  | nil => intro i h; simp [position] at h
  | cons b rest ih =>
    intro i h
    simp only [position] at h
    by_cases hb : p b
    · simp [hb] at h
      exact ⟨b, by simp [← h], hb⟩
    · simp [hb] at h
      obtain ⟨j, hj, rfl⟩ := h
      obtain ⟨x, hx, hpx⟩ := ih j hj
      exact ⟨x, by simpa using hx, hpx⟩

theorem position_some_take (p : Nat → Bool) :
    ∀ (l : List Nat) (i : Nat), position p l = some i →
      ∀ b ∈ l.take i, p b = false := by
  intro l
  induction l with
  | nil => intro i h; simp [position] at h
  | cons a rest ih =>
    intro i h b hb
    simp only [position] at h
    by_cases ha : p a
    · simp [ha] at h
      simp [← h] at hb
    · simp [ha] at h
      obtain ⟨j, hj, rfl⟩ := h
      simp only [List.take_succ_cons] at hb
      rcases List.mem_cons.mp hb with rfl | hb
      · simpa using ha
      · exact ih j hj b hb

theorem position_take_false (p : Nat → Bool) (l : List Nat) :
    ∀ b ∈ l.take ((position p l).getD l.length), p b = false := by
  cases h : position p l with
  | none =>
    intro b hb
    exact position_none_forall p l h b (List.take_subset _ _ hb)
  | some i =>
    simpa using position_some_take p l i h

/-- The bounds check of `slice::get` inside `str_from_u8` always
succeeds, so `str_from_u8` reduces to UTF-8 decoding of the prefix up
to the first null byte. -/
theorem str_from_u8_eq (buf : List Nat) :
    str_from_u8 buf =
      match from_utf8 (buf.take ((position (· == 0) buf).getD buf.length)) with
      | .ok s => .ok s
      | .error e => .error (.Utf8 e) := by
  have hle := position_getD_le (fun b => b == 0) buf
  unfold str_from_u8 sliceGet
  simp only [hle, if_pos]

/-- `from_utf8` succeeds only with its own input: a `&str` is exactly
the validated byte sequence. -/
theorem from_utf8_ok (l t : List Nat) (h : from_utf8 l = .ok t) : t = l := by
  unfold from_utf8 at h
  cases hm : utf8FindErrorAux l.length 0 l <;> rw [hm] at h <;> simp at h
  exact h.symm

/-! ### Claims -/

/-- C1: `get_process_group` passes the OS-reported process group id
through unmodified when the OS call does not return the sentinel -1;
when it does, the error is chosen by the errno snapshot taken right
after the call: `EPERM ↦ NoPermission`, `ESRCH ↦ ProcessGroupNotFound`,
`EINVAL ↦ InvalidPidSupplied`, everything else `↦ UnknownGetpguid`; and
no error kind outside these four is ever produced. -/
theorem claim_C1 (osPgid errnoVal : Int) :
    (osPgid ≠ -1 → get_process_group osPgid errnoVal = .ok osPgid)
    ∧ (osPgid = -1 →
        (errnoVal = EPERM →
          get_process_group osPgid errnoVal = .error .NoPermission)
        ∧ (errnoVal = ESRCH →
          get_process_group osPgid errnoVal = .error .ProcessGroupNotFound)
        ∧ (errnoVal = EINVAL →
          get_process_group osPgid errnoVal = .error .InvalidPidSupplied)
        ∧ (errnoVal ≠ EPERM → errnoVal ≠ ESRCH → errnoVal ≠ EINVAL →
          get_process_group osPgid errnoVal = .error .UnknownGetpguid))
    ∧ (∀ e, get_process_group osPgid errnoVal = .error e →
        e = Error.NoPermission ∨ e = Error.ProcessGroupNotFound
        ∨ e = Error.InvalidPidSupplied ∨ e = Error.UnknownGetpguid) := by
  unfold get_process_group
  refine ⟨fun h => by simp [h], fun h => ?_, fun e he => ?_⟩
  · subst h
    refine ⟨fun h1 => by simp [h1, EPERM, ESRCH, EINVAL],
      fun h2 => by simp [h2, EPERM, ESRCH, EINVAL],
      fun h3 => by simp [h3, EPERM, ESRCH, EINVAL], ?_⟩
    intro h1 h2 h3
    simp [h1, h2, h3]
  · by_cases h : osPgid = -1
    · simp only [h, if_pos rfl] at he
      split_ifs at he <;> simp_all
    · simp [h] at he

/-- C1 witness: at `osPgid = -1` with errno `ESRCH` (= 3) the query
returns `ProcessGroupNotFound`. -/
theorem claim_C1_witness :
    get_process_group (-1) 3 = .error Error.ProcessGroupNotFound :=
  ((claim_C1 (-1) 3).2.1 rfl).2.1 rfl

/-- C4: `bytes_to_megabytes` computes `(bytes / 1_000_000) *
unit_multiplier` in the unsigned 64-bit domain with the truncating
division performed before the multiplication; in particular for the
spec's three sample inputs it returns 2, 3 and 0. -/
theorem claim_C4 (b m : Nat) (hb : b < 2 ^ 64) (hm : m < 2 ^ 64) :
    bytes_to_megabytes b m = b / 1000000 * m % 2 ^ 64
    ∧ (b / 1000000 * m < 2 ^ 64 → bytes_to_megabytes b m = b / 1000000 * m)
    ∧ bytes_to_megabytes 2500000 1 = 2
    ∧ bytes_to_megabytes 1000000 3 = 3
    ∧ bytes_to_megabytes 999999 1 = 0 := by
  refine ⟨by norm_num [bytes_to_megabytes], fun h => ?_, by decide, by decide,
    by decide⟩
  simpa [bytes_to_megabytes] using Nat.mod_eq_of_lt h

/-- C4 witness: the sample input 2_500_000 bytes with multiplier 1. -/
theorem claim_C4_witness : bytes_to_megabytes 2500000 1 = 2 :=
  (claim_C4 2500000 1 (by norm_num) (by norm_num)).2.2.1

/-- C5 counterexample: at `byte_count = 2_000_000`,
`unit_multiplier = 2^63` (both valid u64 values) the mathematical value
`(2_000_000 / 1_000_000) * 2^63 = 2^64` does not fit in the 64-bit
unsigned domain; the u64 multiplication wraps and the function returns
0, so the operation does overflow out of the domain, contrary to the
claim. -/
theorem claim_C5_counterexample :
    2000000 < 2 ^ 64 ∧ 2 ^ 63 < 2 ^ 64
    ∧ bytes_to_megabytes 2000000 (2 ^ 63) = 0
    ∧ 2000000 / 1000000 * 2 ^ 63 = 2 ^ 64
    ∧ bytes_to_megabytes 2000000 (2 ^ 63) ≠ 2000000 / 1000000 * 2 ^ 63 := by
  refine ⟨by norm_num, by norm_num, by decide, by norm_num, by decide⟩

/-- C5 (amended): `bytes_to_megabytes` is total — every pair of u64
inputs produces a result, always inside the 64-bit unsigned domain, and
there is no error or panic path in the embedding; the result is the
mathematical `(bytes / 1_000_000) * unit_multiplier` whenever that
value fits in the domain, and its reduction modulo `2^64` (a wrapped
u64 multiplication) otherwise. -/
theorem claim_C5 (b m : Nat) (hb : b < 2 ^ 64) (hm : m < 2 ^ 64) :
    bytes_to_megabytes b m < 2 ^ 64
    ∧ bytes_to_megabytes b m = b / 1000000 * m % 2 ^ 64
    ∧ (b / 1000000 * m < 2 ^ 64 → bytes_to_megabytes b m = b / 1000000 * m) := by
  refine ⟨Nat.mod_lt _ (by norm_num), by norm_num [bytes_to_megabytes],
    fun h => ?_⟩
  simpa [bytes_to_megabytes] using Nat.mod_eq_of_lt h

/-- C5 witness: at the wrapping input the result 0 is still inside the
64-bit unsigned domain. -/
theorem claim_C5_witness : bytes_to_megabytes 2000000 (2 ^ 63) < 2 ^ 64 :=
  (claim_C5 2000000 (2 ^ 63) (by norm_num) (by norm_num)).1

/-- C7: `page_size` returns `SysConfFailed` exactly when the OS
configuration query returns its failure sentinel -1; otherwise it
returns the OS-reported page size passed through (widened to `i64`),
and no other error is ever produced. -/
theorem claim_C7 (r : Int) :
    (page_size r = .error Error.SysConfFailed ↔ r = -1)
    ∧ (r ≠ -1 → page_size r = .ok r)
    ∧ (∀ e, page_size r = .error e → e = Error.SysConfFailed) := by
  unfold page_size
  by_cases h : r = -1 <;> simp [h]

/-- C7 witness: an OS-reported page size of 4096 is passed through. -/
theorem claim_C7_witness : page_size 4096 = .ok 4096 :=
  (claim_C7 4096).2.1 (by decide)

/-- C8: `running_as_sudo` returns true exactly when the effective user
id of the calling process is 0; it is a total Bool-valued function with
no error path. -/
theorem claim_C8 (euid : Nat) :
    running_as_sudo euid = true ↔ effective_user_id euid = 0 := by
  unfold running_as_sudo effective_user_id
  simp

/-- C8 witness: with effective uid 0 the check returns true. -/
theorem claim_C8_witness : running_as_sudo 0 = true :=
  (claim_C8 0).mpr rfl

/-- C6: `get_username` never returns an error: it yields `some name`
exactly when the `getpwuid_r` query returns code 0 with a non-null
entry pointer, `name` being the lossy UTF-8 copy of the entry's login
name (a total conversion, so the copy never fails); in every other
case — nonzero code (unknown uid, database error, truncation) or a
null result pointer — it returns `none`. -/
theorem claim_C6 (q : PwQuery) :
    ((get_username q).isSome ↔ q.code = 0 ∧ q.resultNull = false)
    ∧ (q.code = 0 → q.resultNull = false →
        get_username q = some (from_utf8_lossy q.pwNameBytes))
    ∧ (¬(q.code = 0 ∧ q.resultNull = false) → get_username q = none) := by
  unfold get_username
  by_cases hc : q.code = 0 <;> by_cases hr : q.resultNull <;> simp [hc, hr]

/-- C6 witness: a successful query whose entry name is `root` returns
`some` of those bytes. -/
theorem claim_C6_witness :
    get_username ⟨0, false, [114, 111, 111, 116]⟩
      = some [114, 111, 111, 116] := by
  have h := (claim_C6 ⟨0, false, [114, 111, 111, 116]⟩).2.1 rfl rfl
  rw [h]
  decide

/-- C2 counterexample: the claim quantifies over every string S, but a
Rust string may contain an interior null byte.  Take S = [97, 0, 98]
("a\x00b"), a valid UTF-8 string of byte length 3, and a buffer of
capacity 4 holding S followed by a null byte: `str_from_u8` stops at
the interior null and returns Ok([97]), not Ok(S). -/
theorem claim_C2_counterexample :
    from_utf8 [97, 0, 98] = .ok [97, 0, 98]
    ∧ str_from_u8 [97, 0, 98, 0] = .ok [97]
    ∧ str_from_u8 [97, 0, 98, 0] ≠ .ok [97, 0, 98] := by
  refine ⟨rfl, rfl, fun h => ?_⟩
  simp [str_from_u8, position, sliceGet, from_utf8, utf8FindErrorAux,
    utf8Step] at h

/-- C2 (amended): the round-trip holds for every string S that contains
no null byte: for such S (valid UTF-8, hence `from_utf8 S = Ok S`) and
any trailing contents, decoding the buffer S ++ 0 :: rest returns
exactly Ok(S) — in particular S's byte length is strictly below the
buffer capacity; and for every buffer with no null byte, `str_from_u8`
returns the UTF-8 interpretation of the entire buffer: Ok of the whole
buffer when it is valid UTF-8, and the underlying decode failure
otherwise. -/
theorem claim_C2 (S rest buf : List Nat) :
    (from_utf8 S = .ok S → 0 ∉ S →
      str_from_u8 (S ++ 0 :: rest) = .ok S)
    ∧ (0 ∉ buf →
        (from_utf8 buf = .ok buf → str_from_u8 buf = .ok buf)
        ∧ (∀ e, from_utf8 buf = .error e →
            str_from_u8 buf = .error (.Utf8 e))) := by
  constructor
  · intro hS hnul
    have hfalse : ∀ x ∈ S, (x == 0) = false := by
      intro x hx
      simp only [beq_eq_false_iff_ne, ne_eq]
      exact fun h => hnul (h ▸ hx)
    have hpos : position (· == 0) (S ++ 0 :: rest) = some S.length :=
      position_append_first _ 0 (by simp) S rest hfalse
    rw [str_from_u8_eq]
    simp only [hpos, Option.getD_some, List.take_left]
    rw [hS]
  · intro hnul
    have hfalse : ∀ x ∈ buf, (x == 0) = false := by
      intro x hx
      simp only [beq_eq_false_iff_ne, ne_eq]
      exact fun h => hnul (h ▸ hx)
    have hpos : position (· == 0) buf = none := position_eq_none _ buf hfalse
    constructor
    · intro hok
      rw [str_from_u8_eq]
      simp only [hpos, Option.getD_none, List.take_length]
      rw [hok]
    · intro e he
      rw [str_from_u8_eq]
      simp only [hpos, Option.getD_none, List.take_length]
      rw [he]

/-- C2 witness: the amended round-trip at S = "hi" = [104, 105] with a
trailing byte after the terminator. -/
theorem claim_C2_witness :
    str_from_u8 [104, 105, 0, 122] = .ok [104, 105] :=
  (claim_C2 [104, 105] [122] []).1 rfl (by decide)

/-- C3: the `StringFromBytes` branch of `str_from_u8` is unreachable:
the computed slice end never exceeds the buffer length, so for every
buffer the result is either Ok, or a UTF-8 decode failure — never
`Error.StringFromBytes`. -/
theorem claim_C3 (buf : List Nat) :
    (∃ s, str_from_u8 buf = .ok s)
    ∨ (∃ e, str_from_u8 buf = .error (.Utf8 e)) := by
  rw [str_from_u8_eq]
  cases h : from_utf8 (buf.take ((position (· == 0) buf).getD buf.length)) with
  | ok s => exact Or.inl ⟨s, by simp [h]⟩
  | error e => exact Or.inr ⟨e, by simp [h]⟩

/-- C9: `file_from_buffer` composes decoding and file opening: a decode
failure is returned unchanged and the file-open oracle is never
consulted (the result is the same for every oracle); on a decoded path
the OS open failure kind is propagated (wrapped as `Error.Io`)
unchanged — so a path to a non-existent file yields the not-found
failure kind, not a decode failure — and an OS success yields the open,
caller-owned handle. -/
theorem claim_C9 (openFile : List Nat → Except IoErrorKind File)
    (buf : List Nat) :
    (∀ e, str_from_u8 buf = .error e →
      file_from_buffer openFile buf = .error e)
    ∧ (∀ path, str_from_u8 buf = .ok path →
        (∀ f, openFile path = .ok f →
          file_from_buffer openFile buf = .ok f)
        ∧ (∀ k, openFile path = .error k →
          file_from_buffer openFile buf = .error (.Io k))) := by
  constructor
  · intro e he
    unfold file_from_buffer
    rw [he]
  · intro path hpath
    constructor
    · intro f hf
      simp [file_from_buffer, hpath, hf]
    · intro k hk
      simp [file_from_buffer, hpath, hk]

/-- C9 witness: buffer [47, 120] decodes to the path "/x"; with an OS
oracle reporting not-found, the result is the Io(NotFound) failure, not
a decode failure. -/
theorem claim_C9_witness :
    file_from_buffer (fun _ => .error IoErrorKind.NotFound) [47, 120]
      = .error (Error.Io IoErrorKind.NotFound) :=
  ((claim_C9 (fun _ => .error IoErrorKind.NotFound) [47, 120]).2
    [47, 120] rfl).2 IoErrorKind.NotFound rfl

/-- C10: whenever `str_from_u8` returns Ok(s), the bytes of s are a
prefix of the buffer (`buf.take s.length = s`), s contains no null
byte, and s is maximal: either it spans the whole buffer or the buffer
byte at position `s.length` is the null terminator; moreover an empty
buffer and a buffer starting with a null byte both decode to Ok of the
empty string. -/
theorem claim_C10 (buf s : List Nat) :
    (str_from_u8 buf = .ok s →
      buf.take s.length = s ∧ 0 ∉ s
        ∧ (s.length = buf.length ∨ buf.get? s.length = some 0))
    ∧ str_from_u8 [] = .ok []
    ∧ (∀ rest, str_from_u8 (0 :: rest) = .ok []) := by
  refine ⟨fun h => ?_, rfl, fun rest => ?_⟩
  · rw [str_from_u8_eq] at h
    have hle : (position (· == 0) buf).getD buf.length ≤ buf.length :=
      position_getD_le _ buf
    have hs : s = buf.take ((position (· == 0) buf).getD buf.length) := by
      cases hu :
          from_utf8 (buf.take ((position (· == 0) buf).getD buf.length)) with
      | ok t =>
        rw [hu] at h
        have ht := from_utf8_ok _ _ hu
        simp only [Except.ok.injEq] at h
        rw [← h, ht]
      | error e => rw [hu] at h; simp at h
    have hlen : s.length = (position (· == 0) buf).getD buf.length := by
      rw [hs, List.length_take]
      omega
    refine ⟨?_, ?_, ?_⟩
    · rw [hlen, ← hs]
    · intro h0
      have := position_take_false (· == 0) buf 0 (hs ▸ h0)
      simp at this
    · cases hp : position (· == 0) buf with
      | none =>
        left
        rw [hlen, hp]
        rfl
      | some i =>
        right
        obtain ⟨b, hb, hpb⟩ := position_some_found _ buf i hp
        have hb0 : b = 0 := by simpa using hpb
        rw [hlen, hp]
        simpa [hb0] using hb
  · rw [str_from_u8_eq]
    have hp : position (· == 0) (0 :: rest) = some 0 := by
      simp [position]
    simp [hp, from_utf8, utf8FindErrorAux]

/-- C10 witness: on the buffer [104, 0, 122] the function returns
Ok([104]); that prefix is null-free and stops exactly at the null
terminator at position 1. -/
theorem claim_C10_witness :
    ([104, 0, 122] : List Nat).take ([104] : List Nat).length = [104]
    ∧ (0 : Nat) ∉ ([104] : List Nat)
    ∧ (([104] : List Nat).length = ([104, 0, 122] : List Nat).length
        ∨ ([104, 0, 122] : List Nat).get? ([104] : List Nat).length
            = some 0) :=
  (claim_C10 [104, 0, 122] [104]).1 rfl

end Bustd
